import Mathlib

/-!
Verification of the GPflow tutorial notebook that mixes a Keras CNN with a
GPflow kernel ("Mixing TensorFlow models with GPflow").

Shallow embedding: batches of inputs are lists of rational vectors, a base
kernel is its pairwise covariance function together with its diagonal
(variance) function, and the composite kernel `KernelWithConvNN` owns the
CNN feature map and the base kernel, exactly as in the notebook source.
-/

namespace ConvGP

/-- A single input vector (a flattened image, or a point in feature space). -/
abbrev Vec := List ℚ

/-- A batch of inputs, one vector per row. -/
abbrev Mat := List Vec

/-- Entry access with default 0, so matrix entries can be named without
dependent index proofs. -/
def Mat.entry (m : Mat) (i j : Nat) : ℚ := (m.getD i []).getD j 0

/-- The diagonal of a matrix, as a vector. -/
def Mat.diag (m : Mat) : Vec := (List.range m.length).map (fun i => Mat.entry m i i)

/-- A gpflow base kernel: its pairwise covariance function `k` and its
diagonal (per-point variance) function `kdiag`.  In gpflow these are the two
primitive evaluation routines a kernel implements. -/
structure BaseKernel where
  k : Vec → Vec → ℚ
  kdiag : Vec → ℚ

/-- Full-matrix evaluation mode of a gpflow kernel, `K(X, X2)` with `X2`
optional: when `X2` is absent the self-covariance matrix `K(X, X)` is
computed (gpflow semantics of `X2=None`). -/
def BaseKernel.K (bk : BaseKernel) (a : Mat) (b : Option Mat) : Mat :=
  match b with
  | some bmat => a.map (fun x => bmat.map (fun y => bk.k x y))
  | none => a.map (fun x => a.map (fun y => bk.k x y))

/-- Diagonal-only evaluation mode of a gpflow kernel, `K_diag(X)`. -/
def BaseKernel.K_diag (bk : BaseKernel) (a : Mat) : Vec := a.map bk.kdiag

/-- Which of the two evaluation modes of the base kernel a computation
invoked: the full cross-covariance matrix mode, or the diagonal-only mode. -/
inductive KernelEvalMode where
  | full
  | diagonal
  deriving DecidableEq, Repr

/-- Full-matrix mode together with the record that the full mode was used. -/
def BaseKernel.K_traced (bk : BaseKernel) (a : Mat) (b : Option Mat) :
    Mat × KernelEvalMode := (bk.K a b, KernelEvalMode.full)

/-- The composite kernel of the notebook: it owns the CNN feature map
(`self.cnn`, a Keras network, modelled here as the function it computes on
one input vector) and the base kernel (`self.base_kernel`). -/
structure KernelWithConvNN where
  base_kernel : BaseKernel
  cnn : Vec → Vec

/-- Apply the CNN to every row of a batch (the Keras model maps over the
batch dimension). -/
def KernelWithConvNN.cnnBatch (ker : KernelWithConvNN) (a : Mat) : Mat :=
  a.map ker.cnn

/-- Embedding of the notebook method
`K(self, a_input, b_input=None)`:
`transformed_a = self.cnn(a_input)`;
`transformed_b = self.cnn(b_input) if b_input is not None else b_input`;
`return self.base_kernel.K(transformed_a, transformed_b)`. -/
def KernelWithConvNN.K (ker : KernelWithConvNN) (a_input : Mat)
    (b_input : Option Mat) : Mat :=
  let transformed_a := ker.cnnBatch a_input
  let transformed_b := b_input.map ker.cnnBatch
  ker.base_kernel.K transformed_a transformed_b

/-- The same method, recording which base-kernel evaluation mode its body
invokes (the body calls `self.base_kernel.K`, the full-matrix mode). -/
def KernelWithConvNN.K_traced (ker : KernelWithConvNN) (a_input : Mat)
    (b_input : Option Mat) : Mat × KernelEvalMode :=
  let transformed_a := ker.cnnBatch a_input
  let transformed_b := b_input.map ker.cnnBatch
  ker.base_kernel.K_traced transformed_a transformed_b

/-- Embedding of the notebook method `K_diag(self, a_input)`:
`transformed_a = self.cnn(a_input)`;
`return self.base_kernel.K_diag(transformed_a)`. -/
def KernelWithConvNN.K_diag (ker : KernelWithConvNN) (a_input : Mat) : Vec :=
  ker.base_kernel.K_diag (ker.cnnBatch a_input)

/-- Dot product of two vectors (for the linear base kernel used in the
end-to-end scenario and in concrete witnesses). -/
def dot (x y : Vec) : ℚ := (List.zipWith (· * ·) x y).sum

/-- A linear base kernel: `k(x, y) = x ⬝ y`, `kdiag(x) = x ⬝ x`. -/
def linearBase : BaseKernel := { k := dot, kdiag := fun x => dot x x }

/-- The composite kernel with the transform set to the identity function and
the base kernel set to the linear kernel (the end-to-end scenario of the
spec). -/
def idLinearKernel : KernelWithConvNN := { base_kernel := linearBase, cnn := id }

/-- An inducing variable holding the inducing points `Z`.  The notebook class
`KernelSpaceInducingPoints` subclasses `gpflow.inducing_variables.InducingPoints`
without adding data, so both carry exactly this. -/
structure InducingPointsData where
  Z : Mat

/-- The notebook subclass: `class KernelSpaceInducingPoints(InducingPoints): pass`. -/
abbrev KernelSpaceInducingPoints := InducingPointsData

/-- Add `jitter` to every diagonal entry of a matrix. -/
def addJitter (m : Mat) (jitter : ℚ) : Mat :=
  m.mapIdx (fun i row => row.mapIdx (fun j x => if i = j then x + jitter else x))

/-- The generic base-case `Kuu` dispatch target that the external library
(gpflow) registers for (`InducingPoints`, `Kernel`); its code lives in gpflow,
not in this repository.  It evaluates the kernel on the inducing points
themselves and adds the jitter to the diagonal:
`Kzz = kernel(Z, Z) + jitter * I`. -/
def Kuu_base (iv : InducingPointsData) (bk : BaseKernel) (jitter : ℚ) : Mat :=
  addJitter (bk.K iv.Z (some iv.Z)) jitter

/-- Embedding of the covariance the notebook registers for
(`KernelSpaceInducingPoints`, `KernelWithConvNN`):
`func = gpflow.covariances.Kuu.dispatch(InducingPoints, Kernel)`;
`return func(inducing_variable, kernel.base_kernel, jitter=jitter)`. -/
def Kuu (inducing_variable : KernelSpaceInducingPoints)
    (kernel : KernelWithConvNN) (jitter : ℚ) : Mat :=
  Kuu_base inducing_variable kernel.base_kernel jitter

/-- Embedding of the covariance the notebook registers for
(`KernelSpaceInducingPoints`, `KernelWithConvNN`, `object`):
`return kernel.base_kernel(inducing_variable.Z, kernel.cnn(a_input))`.
Calling a gpflow kernel with two arguments evaluates its full-matrix mode. -/
def Kuf (inducing_variable : KernelSpaceInducingPoints)
    (kernel : KernelWithConvNN) (a_input : Mat) : Mat :=
  kernel.base_kernel.K inducing_variable.Z (some (kernel.cnnBatch a_input))

/-- One example of the training dataset: a flattened image and its class
label. -/
structure Example where
  image : Vec
  label : ℚ

/-- The fixed batch size of the notebook: `batch_size = 32`. -/
def batch_size : Nat := 32

/-- Embedding of `map_fn` applied to one drawn batch: images are rescaled by
255 and reshaped to one row per example, labels are returned alongside. -/
def map_fn (batch : List Example) : List Vec × List ℚ :=
  (batch.map (fun e => e.image.map (· / 255)), batch.map (fun e => e.label))

/-- Embedding of `.batch(b, drop_remainder=True)`: split a stream into
consecutive chunks of exactly `b` elements, dropping the final partial
chunk. -/
def batchDrop {α : Type} (b : Nat) (l : List α) : List (List α) :=
  if _h : 0 < b ∧ b ≤ l.length then l.take b :: batchDrop b (l.drop b) else []
termination_by l.length
decreasing_by simp only [List.length_drop]; omega

/-- Embedding of one pass of the dataset pipeline
`original_dataset.shuffle(1024).batch(batch_size, drop_remainder=True)
.map(map_fn, num_parallel_calls=autotune).prefetch(autotune)`.
The shuffle is an external random reordering, taken as a parameter;
prefetch affects scheduling only, not which elements are produced. -/
def datasetBatches (shuffle : List Example → List Example)
    (original : List Example) : List (List Vec × List ℚ) :=
  (batchDrop batch_size (shuffle original)).map map_fn

/-- The final `.repeat()` makes the stream infinite: the n-th batch drawn
from the iterator is the (n mod number of batches)-th batch of one pass;
when no complete batch exists the iterator yields nothing at all. -/
def datasetNth (shuffle : List Example → List Example)
    (original : List Example) (n : Nat) : Option (List Vec × List ℚ) :=
  (datasetBatches shuffle original).get?
    (n % (datasetBatches shuffle original).length)

/-- The trainable parameters of the model: CNN weights, base-kernel
hyperparameters, inducing points and variational parameters. -/
structure ModelParams where
  cnnWeights : List ℚ
  kernelParams : List ℚ
  inducingZ : Mat
  q_mu : Mat
  q_sqrt : Mat

/-- The state the training loop mutates: the trainable parameters and the
position of the dataset iterator. -/
structure TrainState where
  params : ModelParams
  iteratorPos : Nat

/-- Embedding of `optimization_step`: draw the next batch from the iterator,
then let the external Adam optimizer update the trainable parameters from the
loss on that batch (`adam_opt.minimize(func, var_list=model.trainable_variables)`).
The optimizer update itself is external library code, taken as a parameter. -/
def optimization_step
    (adamMinimize : (List Vec × List ℚ) → ModelParams → ModelParams)
    (nextBatch : Nat → List Vec × List ℚ) (st : TrainState) : TrainState :=
  let batch := nextBatch st.iteratorPos
  { params := adamMinimize batch st.params, iteratorPos := st.iteratorPos + 1 }

/-- Embedding of the training loop
`for _ in range(iterations): optimization_step()`. -/
def trainingLoop
    (adamMinimize : (List Vec × List ℚ) → ModelParams → ModelParams)
    (nextBatch : Nat → List Vec × List ℚ) (iterations : Nat)
    (st : TrainState) : TrainState :=
  match iterations with
  | 0 => st
  | n + 1 =>
      trainingLoop adamMinimize nextBatch n
        (optimization_step adamMinimize nextBatch st)

/-- Embedding of `loss_cb`:
`loss_value = -model.elbo(batch); return loss_value`.
The ELBO is external library code that may raise; raising is modelled by
`Except`. -/
def loss_cb {ε : Type} (elbo : (List Vec × List ℚ) → Except ε ℚ)
    (batch : List Vec × List ℚ) : Except ε ℚ :=
  (elbo batch).map (fun v => -v)

/-- Embedding of `optimization_step` with raising made explicit:
`batch = next(data_iterator)` (the repeated dataset never exhausts), then
`adam_opt.minimize(func, ...)` evaluates the loss closure and applies the
gradient update, itself fallible external code.  No try/except surrounds any
of it: the body is a plain sequence of fallible calls. -/
def optimization_step_exc {ε : Type}
    (elbo : (List Vec × List ℚ) → Except ε ℚ)
    (adamUpdate : ℚ → ModelParams → Except ε ModelParams)
    (nextBatch : Nat → List Vec × List ℚ) (st : TrainState) :
    Except ε TrainState := do
  let batch := nextBatch st.iteratorPos
  let lossValue ← loss_cb elbo batch
  let newParams ← adamUpdate lossValue st.params
  pure { params := newParams, iteratorPos := st.iteratorPos + 1 }

end ConvGP

namespace ConvGP

/-- C1: for every pair of batches of raw inputs A and B, the composite
kernel full cross-covariance `KernelWithConvNN.K(A, B)` equals
`base_kernel.K(cnn(A), cnn(B))` element-for-element: the CNN transform is
applied to each batch and the result is delegated to the base kernel
full-matrix mode. -/
theorem K_delegates_to_base (ker : KernelWithConvNN) (a b : Mat) :
    ker.K a (some b) = ker.base_kernel.K (ker.cnnBatch a) (some (ker.cnnBatch b)) := rfl

/-- C6: passing None as the second batch yields the same N-by-N matrix as
passing the first batch twice: `K(A, None) = K(A, A)`. -/
theorem K_none_eq_K_self (ker : KernelWithConvNN) (a : Mat) :
    ker.K a none = ker.K a (some a) := rfl

/-- C9: with the transform set to the identity and the base kernel linear,
the composite kernel on the 2-point batch [[1,2],[3,4]] equals the exact
linear-kernel Gram matrix of those two vectors. -/
theorem K_identity_linear_gram :
    idLinearKernel.K [[1, 2], [3, 4]] (some [[1, 2], [3, 4]]) =
      [[5, 11], [11, 25]] := by
  norm_num [idLinearKernel, linearBase, dot, KernelWithConvNN.K,
    KernelWithConvNN.cnnBatch, BaseKernel.K]

/-- Helper: `getD` on a mapped list, inside the bounds, is the function
applied to `getD` on the original list. -/
theorem getD_map_of_lt {α β : Type} (f : α → β) (l : List α) (i : Nat)
    (h : i < l.length) (d : β) (d0 : α) :
    (l.map f).getD i d = f (l.getD i d0) := by
  rw [List.getD_eq_getElem l d0 h, List.getD_eq_getElem (l.map f) d (by simpa using h)]
  simp

/-- C2: the registered Kuf for (KernelSpaceInducingPoints, KernelWithConvNN)
has entry (i, j) equal to the base kernel applied to the raw inducing point
Z_i and the CNN-transformed input A_j: the transform is applied to the raw
batch and never to Z. -/
theorem Kuf_entry (iv : KernelSpaceInducingPoints) (ker : KernelWithConvNN)
    (a : Mat) (i j : Nat) (hi : i < iv.Z.length) (hj : j < a.length) :
    Mat.entry (Kuf iv ker a) i j =
      ker.base_kernel.k (iv.Z.getD i []) (ker.cnn (a.getD j [])) := by
  unfold Kuf Mat.entry BaseKernel.K KernelWithConvNN.cnnBatch
  rw [getD_map_of_lt _ iv.Z i hi [] []]
  rw [getD_map_of_lt _ (a.map ker.cnn) j (by simpa using hj) 0 []]
  rw [getD_map_of_lt _ a j hj [] []]

/-- Witness for C2 at a concrete inducing set, kernel and batch. -/
theorem Kuf_entry_witness :
    0 < (([[1, 0], [0, 1]] : Mat)).length ∧ 0 < (([[2, 3]] : Mat)).length ∧
    Mat.entry (Kuf ⟨[[1, 0], [0, 1]]⟩ idLinearKernel [[2, 3]]) 0 0 =
      idLinearKernel.base_kernel.k ((([[1, 0], [0, 1]] : Mat)).getD 0 [])
        (idLinearKernel.cnn ((([[2, 3]] : Mat)).getD 0 [])) :=
  ⟨by decide, by decide,
    Kuf_entry ⟨[[1, 0], [0, 1]]⟩ idLinearKernel [[2, 3]] 0 0 (by decide) (by decide)⟩

/-- C5: the registered Kuu for (KernelSpaceInducingPoints, KernelWithConvNN)
returns exactly what the generic base-case Kuu for (InducingPoints, Kernel)
returns on the same inducing points, unchanged, and the composite kernel
base kernel, for every jitter value. -/
theorem Kuu_delegates_to_base (iv : KernelSpaceInducingPoints)
    (ker : KernelWithConvNN) (jitter : ℚ) :
    Kuu iv ker jitter = Kuu_base iv ker.base_kernel jitter := rfl

/-- C3 counterexample: on a concrete 2-point batch with the second batch
absent, the body of `K` invokes the base kernel full-matrix mode, not the
diagonal-only mode the claim states. -/
theorem K_none_mode_not_diagonal :
    (idLinearKernel.K_traced [[1, 2], [3, 4]] none).2 ≠ KernelEvalMode.diagonal := by
  intro h
  simp [KernelWithConvNN.K_traced, BaseKernel.K_traced] at h

/-- C3 amended: whenever `K` is called with the second batch absent, the
self-covariance is computed internally via the base kernel full-matrix mode
with the second argument absent, `base_kernel.K(cnn(A), None)`, not via the
diagonal-only mode. -/
theorem K_none_uses_full_mode (ker : KernelWithConvNN) (a : Mat) :
    ker.K_traced a none =
      (ker.base_kernel.K (ker.cnnBatch a) none, KernelEvalMode.full) := rfl

/-- C4: if the base kernel is diagonally consistent — its pairwise covariance
at equal arguments agrees with its diagonal function, which holds of every
gpflow kernel — then the diagonal of `K(A, None)` equals `K_diag(A)` element
by element. -/
theorem K_none_diag_eq_K_diag (ker : KernelWithConvNN) (a : Mat)
    (hbase : ∀ x, ker.base_kernel.k x x = ker.base_kernel.kdiag x) :
    Mat.diag (ker.K a none) = ker.K_diag a := by
  unfold Mat.diag KernelWithConvNN.K KernelWithConvNN.K_diag BaseKernel.K
    BaseKernel.K_diag KernelWithConvNN.cnnBatch
  simp only [Option.map_none']
  apply List.ext_getElem
  · simp
  · intro i h1 h2
    simp only [List.getElem_map, List.getElem_range, List.length_map] at h2 ⊢
    have hi : i < a.length := by simpa using h2
    unfold Mat.entry
    rw [getD_map_of_lt _ (a.map ker.cnn) i (by simpa using hi) [] []]
    rw [getD_map_of_lt _ (a.map ker.cnn) i (by simpa using hi) 0 []]
    rw [getD_map_of_lt _ a i hi [] []]
    rw [hbase, List.getD_eq_getElem a [] hi]

/-- Witness for C4 at the identity-transform linear kernel on a concrete
batch. -/
theorem K_none_diag_eq_K_diag_witness :
    (∀ x, idLinearKernel.base_kernel.k x x = idLinearKernel.base_kernel.kdiag x) ∧
    Mat.diag (idLinearKernel.K [[1, 2], [3, 4]] none) =
      idLinearKernel.K_diag [[1, 2], [3, 4]] :=
  ⟨fun _ => rfl,
    K_none_diag_eq_K_diag idLinearKernel [[1, 2], [3, 4]] (fun _ => rfl)⟩

/-- Helper, by induction on a bound for the stream length: every chunk
produced by `batchDrop` has exactly `b` elements. -/
theorem batchDrop_length_le {α : Type} (b n : Nat) :
    ∀ l : List α, l.length ≤ n → ∀ c ∈ batchDrop b l, c.length = b := by
  induction n with
  | zero =>
    intro l hl c hc
    rw [batchDrop, dif_neg (by omega)] at hc
    simp at hc
  | succ n ih =>
    intro l hl c hc
    rw [batchDrop] at hc
    by_cases hcond : 0 < b ∧ b ≤ l.length
    · rw [dif_pos hcond] at hc
      rcases List.mem_cons.mp hc with hc | hc
      · subst hc
        simp only [List.length_take]
        omega
      · exact ih (l.drop b) (by simp only [List.length_drop]; omega) c hc
    · rw [dif_neg hcond] at hc
      simp at hc

/-- Helper: every chunk produced by `batchDrop` has exactly `b` elements. -/
theorem batchDrop_length_eq {α : Type} (b : Nat) (l : List α) :
    ∀ c ∈ batchDrop b l, c.length = b :=
  batchDrop_length_le b l.length l le_rfl

/-- C7: every batch drawn from the infinitely repeated, shuffled dataset
iterator has exactly the fixed batch size 32 in both its image rows and its
labels; a final partial batch is dropped rather than yielded. -/
theorem dataset_batch_size (shuffle : List Example → List Example)
    (original : List Example) (n : Nat) (p : List Vec × List ℚ)
    (hp : datasetNth shuffle original n = some p) :
    p.1.length = batch_size ∧ p.2.length = batch_size := by
  unfold datasetNth at hp
  have hmem : p ∈ datasetBatches shuffle original := List.get?_mem hp
  unfold datasetBatches at hmem
  rcases List.mem_map.mp hmem with ⟨batch, hbatch, hpb⟩
  have hlen : batch.length = batch_size :=
    batchDrop_length_eq batch_size (shuffle original) batch hbatch
  subst hpb
  simp [map_fn, hlen]

/-- Witness for C7: a 32-example dataset, identity shuffle, fifth draw of
the repeated stream. -/
theorem dataset_batch_size_witness :
    (datasetNth id (List.replicate 32 ⟨[], 0⟩) 5 =
        some (List.replicate 32 [], List.replicate 32 0)) ∧
      (List.replicate 32 ([] : Vec)).length = batch_size ∧
      (List.replicate 32 (0 : ℚ)).length = batch_size := by
  have hbd : batchDrop batch_size (List.replicate 32 (⟨[], 0⟩ : Example)) =
      [List.replicate 32 ⟨[], 0⟩] := by
    rw [batchDrop, dif_pos (by simp [batch_size])]
    simp only [batch_size, List.take_replicate, List.drop_replicate]
    norm_num
    rw [batchDrop, dif_neg (by simp)]
  have hnth : datasetNth id (List.replicate 32 ⟨[], 0⟩) 5 =
      some (List.replicate 32 [], List.replicate 32 0) := by
    unfold datasetNth datasetBatches
    simp only [id_eq, hbd, map_fn, List.map_cons, List.map_nil,
      List.map_replicate, List.length_cons, List.length_nil, Nat.mod_one,
      List.get?_cons_zero, Option.some.injEq]
    rfl
  exact ⟨hnth,
    (dataset_batch_size id (List.replicate 32 ⟨[], 0⟩) 5 _ hnth).1,
    (dataset_batch_size id (List.replicate 32 ⟨[], 0⟩) 5 _ hnth).2⟩

/-- C8: running the training loop for zero iterations leaves the whole
training state, in particular every trainable parameter, unchanged: the loop
body executes no optimizer step when the iteration count is 0. -/
theorem trainingLoop_zero_unchanged
    (adamMinimize : (List Vec × List ℚ) → ModelParams → ModelParams)
    (nextBatch : Nat → List Vec × List ℚ) (st : TrainState) :
    trainingLoop adamMinimize nextBatch 0 st = st := rfl

/-- C10: an optimization step raises exactly when the underlying objective
or optimizer computation raises, and the error value reaches the caller
unchanged: no catching, retry, or recovery happens in the step. -/
theorem optimization_step_error_iff {ε : Type}
    (elbo : (List Vec × List ℚ) → Except ε ℚ)
    (adamUpdate : ℚ → ModelParams → Except ε ModelParams)
    (nextBatch : Nat → List Vec × List ℚ) (st : TrainState) (e : ε) :
    optimization_step_exc elbo adamUpdate nextBatch st = Except.error e ↔
      (elbo (nextBatch st.iteratorPos) = Except.error e ∨
        ∃ v, elbo (nextBatch st.iteratorPos) = Except.ok v ∧
          adamUpdate (-v) st.params = Except.error e) := by
  unfold optimization_step_exc loss_cb
  cases helbo : elbo (nextBatch st.iteratorPos) with
  | error err =>
    simp [helbo, Except.map, bind, Except.bind]
  | ok v =>
    cases hupd : adamUpdate (-v) st.params with
    | error err =>
      simp [helbo, hupd, Except.map, bind, Except.bind, Functor.map]
    | ok p =>
      simp [helbo, hupd, Except.map, bind, Except.bind, Functor.map, pure,
        Except.pure]

end ConvGP
